import Mathlib

set_option maxRecDepth 100000

/-!
Verification of the pickle_inspector static analyzer against its design
specification.  The Python sources (analyzer.py, indexer.py, ast_parser.py,
resolver.py, utils.py, sources_and_sinks.py, report.py) are shallowly
embedded below: the syntax tree the tool walks becomes an inductive type,
the visitor becomes an explicit state-passing fold, and the recursion of
the provenance tracer is made structural on an explicit fuel argument that
mirrors its depth cap (the fuel is always taken large enough that the dump
branches are unreachable, so the Lean functions compute exactly what the
Python functions compute).
-/

namespace PickleInspector

/-! ## Character-level string helpers

Python string operations (`in`, `startswith`, `strip`, slicing) are
modelled on `List Char`. -/

/-- Does `s` start with the pattern `pat`?  Model of Python `str.startswith`
over character lists. -/
def startsChars (s pat : List Char) : Bool :=
  match s, pat with
  | _, [] => true
  | [], _ :: _ => false
  | c :: cs, p :: ps => c == p && startsChars cs ps

/-- Does `s` contain `pat` as a contiguous substring?  Model of Python
`pat in s`. -/
def hasSub (pat s : List Char) : Bool :=
  match s with
  | [] => startsChars [] pat
  | _ :: cs => startsChars s pat || hasSub pat cs

/-- Python `pat in s` on `String`s. -/
def strContains (s pat : String) : Bool :=
  hasSub pat.toList s.toList

/-- Python `str.strip()`: drop whitespace from both ends. -/
def pyStrip (cs : List Char) : List Char :=
  ((cs.dropWhile Char.isWhitespace).reverse.dropWhile Char.isWhitespace).reverse

/-- Split a character list at every occurrence of `c` (Python
`str.split(c)`: the empty string yields one empty chunk). -/
def splitCh (c : Char) : List Char → List (List Char)
  | [] => [[]]
  | x :: xs =>
      if x == c then [] :: splitCh c xs
      else
        match splitCh c xs with
        | [] => [[x]]
        | h :: t => (x :: h) :: t

/-- Python `s.split(".")` on `String`s. -/
def strSplitDot (s : String) : List String :=
  (splitCh '.' s.data).map String.mk

/-- Python `s.endswith(suffix)`. -/
def strEndsWith (s suffix : String) : Bool :=
  startsChars s.data.reverse suffix.data.reverse

/-- Python `s.replace(".", "/")`. -/
def replaceDotSlash (s : String) : String :=
  String.mk (s.data.map fun c => if c == '.' then '/' else c)

/-- Python `s.lower()` (ASCII case folding suffices for the catalog and
keyword patterns the analyzer compares against). -/
def strLower (s : String) : String :=
  String.mk (s.data.map Char.toLower)

/-- Python `sep.join(parts)`. -/
def strJoin (sep : String) : List String → String
  | [] => ""
  | [p] => p
  | p :: rest => p ++ sep ++ strJoin sep rest

/-! ## Sink and source catalog (sources_and_sinks.py) -/

/-- The set `SINKS` from sources_and_sinks.py: fully-qualified names of
dangerous deserialization functions, consulted by exact membership. -/
def SINKS : List String :=
  [ "pickle.load", "pickle.loads", "pickle.Unpickler.load", "joblib.load",
    "cloudpickle.load", "cloudpickle.loads", "dill.load", "dill.loads",
    "marshal.load", "marshal.loads", "shelve.open", "yaml.load",
    "torch.load", "torch.jit.load", "numpy.load", "pandas.read_pickle",
    "sklearn.externals.joblib.load", "keras.models.load_model" ]

/-- The set `SOURCES` from sources_and_sinks.py: known taint sources. -/
def SOURCES : List String :=
  [ "input", "sys.argv", "os.environ.get", "os.getenv", "argparse.Namespace",
    "request.form", "request.form.get", "request.form.__getitem__",
    "request.form['...']",
    "request.args", "request.args.get", "request.args.__getitem__",
    "request.args['...']",
    "request.json", "request.json.get", "request.json.__getitem__",
    "request.json['...']",
    "request.values", "request.values.get",
    "request.data", "request.body",
    "request.files", "request.files.get", "request.files.__getitem__",
    "request.files['...']",
    "request.headers.get", "request.cookies.get",
    "request.POST.get", "request.POST['...']",
    "request.GET.get", "request.GET['...']",
    "request.FILES.get", "request.FILES['...']",
    "fastapi.Request.json", "flask.Request.get_json",
    "requests.get", "urllib.request.urlopen", "socket.recv",
    "base64.b64decode", "json.loads", "open" ]

/-- utils.match_source: exact membership in `sources`, or membership of any
dotted-component truncation of `call_name` (Python iterates i from
len(parts) down to 1 and joins the first i components). -/
def match_source (call_name : String) (sources : List String) : Bool :=
  sources.contains call_name ||
    (let parts := strSplitDot call_name
     (List.range parts.length).any fun k =>
       sources.contains (strJoin "." (parts.take (parts.length - k))))

/-! ## Syntax tree

One constructor per node kind the analyzer inspects, plus a catch-all
`Other` for every remaining node kind (which the tracer classifies as
"unknown source" and the visitors traverse generically).  Every node
carries its `lineno` except `Module`.

The `args` field of a call is an `Args` value: `Args.ok` is a genuine
argument list, while `Args.malformed` models an ill-typed `args` attribute
(as left by a broken parser plug-in): it is truthy under Python `if
node.args:` but indexing or iterating it raises, which is exactly the
contingency the bare `except` clauses in analyzer.py defend against. -/

mutual

inductive Args : Type where
  | ok (elts : List Ast) : Args
  | malformed : Args

/-- Embedded Python AST nodes (the kinds used by analyzer.py). -/
inductive Ast : Type where
  | Name (id : String) (lineno : Nat)
  | Attr (value : Ast) (attr : String) (lineno : Nat)
  | Subscript (value : Ast) (slice : Ast) (lineno : Nat)
  | Call (func : Ast) (args : Args) (keywords : List (Option String × Ast))
      (lineno : Nat)
  | ConstStr (s : String) (lineno : Nat)
  | ConstOther (v : String) (lineno : Nat)
  | ListExpr (elts : List Ast) (lineno : Nat)
  | BinOpAdd (left right : Ast) (lineno : Nat)
  | Assign (targets : List Ast) (value : Ast) (lineno : Nat)
  | With (items : List (Ast × Option Ast)) (body : List Ast) (lineno : Nat)
  | FunctionDef (name : String) (decorators : List Ast) (body : List Ast)
      (lineno : Nat)
  | Return (value : Option Ast) (lineno : Nat)
  | ExprStmt (value : Ast) (lineno : Nat)
  | Module (body : List Ast)
  | Other (children : List Ast) (lineno : Nat)

end

/-- Assoc-list lookup with a default: Python `aliases.get(k, d)`. -/
def lookupD (m : List (String × String)) (k d : String) : String :=
  (m.lookup k).getD d

/-- The base identifier and attribute chain of a callee expression:
`a.b.c` rooted in `Name a` gives `some ("a", ["b", "c"])`; a chain not
rooted in a plain identifier gives `none`. -/
def chainParts : Ast → Option (String × List String)
  | .Name id _ => some (id, [])
  | .Attr v a _ =>
      match chainParts v with
      | some (b, rest) => some (b, rest ++ [a])
      | none => none
  | _ => none

/-- utils.extract_full_func_name: resolve the dotted callee name of a call
through the import alias map; yields `""` when the callee is neither an
identifier nor an attribute chain rooted in one. -/
def extract_full_func_name (func : Ast) (aliases : List (String × String)) :
    String :=
  match func with
  | .Attr .. =>
      match chainParts func with
      | some (base, attrs) =>
          strJoin "." (lookupD aliases base base :: attrs)
      | none => ""
  | .Name id _ => lookupD aliases id id
  | _ => ""

/-- Attribute names of a chain, innermost first, with the base identifier
prepended when the chain is rooted in a plain `Name` (the Python loop in
SinkVisitor.get_attribute_path inserts only the `attr` fields otherwise). -/
def attrPathParts : Ast → List String
  | .Attr v attr _ => attrPathParts v ++ [attr]
  | .Name id _ => [id]
  | _ => []

/-- SinkVisitor.get_attribute_path: rebuild the dotted path of an attribute
chain; a base that is not a plain identifier contributes nothing. -/
def get_attribute_path (a : Ast) : String :=
  strJoin "." (attrPathParts a)

/-- The argument expressions reachable by `ast.iter_child_nodes` through the
`args` field (a malformed `args` value is not a list, so child iteration
skips it). -/
def argChildList : Args → List Ast
  | .ok elts => elts
  | .malformed => []

/-- Python truthiness of `node.args`: an empty list is falsy, a non-empty
list is truthy, and the malformed non-list value is truthy. -/
def argsTruthy : Args → Bool
  | .ok [] => false
  | .ok (_ :: _) => true
  | .malformed => true

/-- The child nodes of a node in `ast.iter_child_nodes` order (fields in
`_fields` order; `withitem` and `keyword` wrapper nodes are flattened into
their expression children, which preserves the relative order of all
statement nodes). -/
def astChildren : Ast → List Ast
  | .Name _ _ => []
  | .Attr v _ _ => [v]
  | .Subscript v s _ => [v, s]
  | .Call f args kws _ => f :: (argChildList args ++ kws.map (fun k => k.2))
  | .ConstStr _ _ => []
  | .ConstOther _ _ => []
  | .ListExpr elts _ => elts
  | .BinOpAdd l r _ => [l, r]
  | .Assign ts v _ => ts ++ [v]
  | .With items body _ =>
      (items.flatMap fun it => it.1 :: it.2.toList) ++ body
  | .FunctionDef _ decs body _ => body ++ decs
  | .Return v _ => v.toList
  | .ExprStmt e _ => [e]
  | .Module body => body
  | .Other children _ => children

mutual

/-- Size of a syntax-tree value, used as recursion fuel: one unit per tree
node plus one per child-list cons cell, so that a node's size strictly
dominates the size of its child list (`astSize a = 1 + listSize
(astChildren a)`, see `astSize_children`). -/
def astSize : Ast → Nat
  | .Name _ _ => 1
  | .Attr v _ _ => 2 + astSize v
  | .Subscript v s _ => 3 + astSize v + astSize s
  | .Call f args kws _ => 2 + astSize f + argsSize args + kwsSize kws
  | .ConstStr _ _ => 1
  | .ConstOther _ _ => 1
  | .ListExpr elts _ => 1 + listSize elts
  | .BinOpAdd l r _ => 3 + astSize l + astSize r
  | .Assign ts v _ => 2 + listSize ts + astSize v
  | .With items body _ => 1 + itemsSize items + listSize body
  | .FunctionDef _ decs body _ => 1 + listSize decs + listSize body
  | .Return v _ => 1 + optSize v
  | .ExprStmt e _ => 2 + astSize e
  | .Module body => 1 + listSize body
  | .Other children _ => 1 + listSize children

def listSize : List Ast → Nat
  | [] => 0
  | a :: rest => 1 + astSize a + listSize rest

def argsSize : Args → Nat
  | .ok elts => listSize elts
  | .malformed => 0

def kwsSize : List (Option String × Ast) → Nat
  | [] => 0
  | k :: rest => 1 + astSize k.2 + kwsSize rest

def itemsSize : List (Ast × Option Ast) → Nat
  | [] => 0
  | it :: rest => 1 + astSize it.1 + optSize it.2 + itemsSize rest

def optSize : Option Ast → Nat
  | none => 0
  | some a => 1 + astSize a

end

theorem listSize_append (l1 l2 : List Ast) :
    listSize (l1 ++ l2) = listSize l1 + listSize l2 := by
  induction l1 with
  | nil => simp [listSize]
  | cons a rest ih => simp [listSize, ih]; omega

theorem listSize_map_snd (kws : List (Option String × Ast)) :
    listSize (kws.map fun k => k.2) = kwsSize kws := by
  induction kws with
  | nil => simp [listSize, kwsSize]
  | cons k rest ih => simp [listSize, kwsSize, ih]

theorem listSize_toList_opt (v : Option Ast) :
    listSize v.toList = optSize v := by
  cases v <;> simp [listSize, optSize]

theorem listSize_flatMap_items (items : List (Ast × Option Ast)) :
    listSize (items.flatMap fun it => it.1 :: it.2.toList) =
      itemsSize items := by
  induction items with
  | nil => simp [listSize, itemsSize]
  | cons it rest ih =>
      rw [List.flatMap_cons, List.cons_append]
      simp only [listSize]
      rw [listSize_append, listSize_toList_opt, ih]
      simp only [itemsSize]
      omega

theorem listSize_argChild (args : Args) :
    listSize (argChildList args) = argsSize args := by
  cases args <;> simp [argChildList, argsSize, listSize]

/-- A node's size is exactly one more than the size of its child list. -/
theorem astSize_children (a : Ast) :
    astSize a = 1 + listSize (astChildren a) := by
  cases a <;>
    simp [astSize, astChildren, listSize, listSize_append, listSize_map_snd,
      listSize_flatMap_items, listSize_argChild, listSize_toList_opt] <;>
    omega

/-- Queue step of `ast.walk` (breadth-first: pop the front node, yield it,
enqueue its children).  Fuel makes the recursion structural; the fuel-spent
branch returns the residual queue and is unreachable whenever the fuel is
at least the node count of the enqueued nodes. -/
def walkF : Nat → List Ast → List Ast
  | _, [] => []
  | 0, q => q
  | fuel + 1, n :: rest => n :: walkF fuel (rest ++ astChildren n)

/-- ast.walk(tree): all nodes of the tree in breadth-first order. -/
def walk (a : Ast) : List Ast :=
  walkF (astSize a) [a]

/-- SinkVisitor.find_assignment: scan the whole file tree in `ast.walk`
order and return the right-hand side of the first assignment whose targets
include `varname`, or the context expression of the first `with` item that
binds `varname` to a call. -/
def find_assignment (tree : Ast) (varname : String) : Option Ast :=
  (walk tree).findSome? fun stmt =>
    match stmt with
    | .Assign targets value _ =>
        if targets.any fun t =>
            match t with
            | .Name id _ => id == varname
            | _ => false
        then some value else none
    | .With items _ _ =>
        items.findSome? fun it =>
          match it.2 with
          | some (.Name id _) =>
              if id == varname &&
                  (match it.1 with
                   | .Call _ _ _ _ => true
                   | _ => false)
              then some it.1 else none
          | _ => none
    | _ => none

/-! ## Project index (indexer.py) and name resolution (resolver.py) -/

/-- indexer.FunctionInfo: a function definition record. -/
structure FunctionInfo where
  name : String
  node : Ast
  filename : String

/-- indexer.FileIndex: per-file tree, function map and import alias map
(dictionaries modelled as association lists in insertion order; lookups
match Python's key lookup). -/
structure FileIndex where
  filename : String
  tree : Ast
  functions : List (String × FunctionInfo)
  imports : List (String × String)

/-- indexer.ProjectIndex (the part the analyzer reads): project files in
insertion order. -/
structure ProjectIndex where
  files : List FileIndex

/-- The first `return` statement in the direct body of a function
definition (the loop in trace_source over `func_info.node.body`). -/
def firstDirectReturn (node : Ast) : Option (Option Ast) :=
  match node with
  | .FunctionDef _ _ body _ =>
      body.findSome? fun stmt =>
        match stmt with
        | .Return v _ => some v
        | _ => none
  | _ => none

/-- resolver.resolve_function_call: the dotted callee name of a call node,
and when available a handle to its definition (sinks are terminals; a
two-component name follows the alias to a project file whose path ends in
the module path; a single-component name is looked up locally, then
through a `from`-import).  The unpacking `_, func = full_ref.rsplit(".", 1)`
raises `ValueError` when the imported reference contains no dot, modelled
as `throw ()` (the caller's handler in trace_source recovers it); an empty
string stored in the import map is falsy under `if module_name:` and
`if full_ref:`. -/
def resolve_function_call (func : Ast) (fi : FileIndex) (pi : ProjectIndex) :
    Except Unit (String × Option FunctionInfo) :=
  let func_name := extract_full_func_name func fi.imports
  if SINKS.contains func_name then .ok (func_name, none)
  else
    match strSplitDot func_name with
    | [al, fn] =>
        (match fi.imports.lookup al with
         | some module_name =>
             if module_name == "" then .ok (func_name, none)
             else
               match pi.files.find? fun f =>
                   strEndsWith f.filename (replaceDotSlash module_name ++ ".py") with
               | some f => .ok (func_name, f.functions.lookup fn)
               | none => .ok (func_name, none)
         | none => .ok (func_name, none))
    | [fn] =>
        (match fi.functions.lookup fn with
         | some local_func => .ok (func_name, some local_func)
         | none =>
             match fi.imports.lookup fn with
             | some full_ref =>
                 if full_ref == "" then .ok (func_name, none)
                 else
                   (match strSplitDot full_ref with
                    | [] => .error ()
                    | [_] => .error ()
                    | ps =>
                        let f := ps.getLast?.getD ""
                        match pi.files.find? fun fl =>
                            (fl.functions.lookup f).isSome with
                        | some fl => .ok (func_name, fl.functions.lookup f)
                        | none => .ok (func_name, none))
             | none => .ok (func_name, none))
    | _ => .ok (func_name, none)

/-! ## Provenance tracing (SinkVisitor.trace_source) -/

/-- The visitor state trace_source reads: the live tainted-identifier set
plus the file and project indices. -/
structure TraceEnv where
  tainted : List String
  fi : FileIndex
  pi : ProjectIndex

/-- Result triple of the tracer: (initial_source, flow, risk). -/
abbrev Triple := String × String × String

/-- The defaulted result of the `except` clause of trace_source. -/
def errTriple : Triple :=
  ("error in source tracing", "error in source tracing", "MEDIUM")

/-- The result returned at the recursion-depth cap. -/
def limitTriple : Triple :=
  ("unknown", "unknown (recursion limit)", "MEDIUM")

/-- The fall-through result for unrecognized node shapes. -/
def unknownTriple : Triple :=
  ("unknown source", "unknown source", "MEDIUM")

/-- Is this expression a subscript of `request.files` (the shape checked
both by visit_Assign and by the direct-stream branch of trace_source)? -/
def isReqFilesSub : Ast → Bool
  | .Subscript (.Attr (.Name "request" _) "files" _) _ _ => true
  | _ => false

/-- The `lineno` attribute of a node (`Module` has none; the Python code
reads it through `getattr(assign, "lineno", "?")`). -/
def astLineno : Ast → Option Nat
  | .Name _ ln => some ln
  | .Attr _ _ ln => some ln
  | .Subscript _ _ ln => some ln
  | .Call _ _ _ ln => some ln
  | .ConstStr _ ln => some ln
  | .ConstOther _ ln => some ln
  | .ListExpr _ ln => some ln
  | .BinOpAdd _ _ ln => some ln
  | .Assign _ _ ln => some ln
  | .With _ _ ln => some ln
  | .FunctionDef _ _ _ ln => some ln
  | .Return _ ln => some ln
  | .ExprStmt _ ln => some ln
  | .Module _ => none
  | .Other _ ln => some ln

/-- Rendering of `getattr(assign, "lineno", "?")`. -/
def linenoRepr (a : Ast) : String :=
  match astLineno a with
  | some n => toString n
  | none => "?"

/-- The attribute paths recognized as tainted request attributes. -/
def requestAttrs : List String :=
  [ "request.form", "request.args", "request.values", "request.json",
    "request.data", "request.POST", "request.GET" ]

/-- One unfolding of the `try` body of trace_source, with the recursive
call `self.trace_source(·, depth + 1)` abstracted as `recurse`.  A raise
from indexing or iterating a malformed `args` value, or propagated out of
`resolve_function_call`, is `throw ()`; the handler in `trace_sourceF`
turns it into `errTriple`. -/
def traceBodyE (recurse : Option Ast → Triple) (env : TraceEnv)
    (node : Option Ast) : Except Unit Triple :=
  match node with
  | some (.Name id _) =>
      if env.tainted.contains id then
        .ok (s!"{id} (tainted from file upload)",
             s!"{id} (tainted from file upload)", "HIGH")
      else
        match find_assignment env.fi.tree id with
        | some assign =>
            if isReqFilesSub assign then
              .ok (s!"{id} (direct stream from request.files)",
                   s!"{id} (direct stream from request.files)", "HIGH")
            else
              let t := recurse (some assign)
              let initial_source := t.1
              let flow := t.2.1
              let risk := t.2.2
              let lineno := linenoRepr assign
              .ok (initial_source,
                   s!"{id} (assigned at line {lineno}) → {flow}", risk)
        | none => .ok (s!"{id} (unresolved)", s!"{id} (unresolved)", "MEDIUM")
  | some (.Call func args _ _) =>
      match resolve_function_call func env.fi env.pi with
      | .error _ => .error ()
      | .ok (func_name, func_info) =>
          if match_source func_name SOURCES then
            if func_name == "open" && argsTruthy args then
              match args with
              | .malformed => .error ()
              | .ok [] => .error ()
              | .ok (a :: _) =>
                  let t := recurse (some a)
                  .ok (t.1, s!"open({t.2.1})", t.2.2)
            else
              .ok (s!"{func_name} (call)", s!"{func_name} (call)", "HIGH")
          else if func_name == "open" && argsTruthy args then
            match args with
            | .malformed => .error ()
            | .ok [] => .error ()
            | .ok (a :: _) =>
                let t := recurse (some a)
                .ok (t.1, s!"open({t.2.1})", t.2.2)
          else if strEndsWith func_name "os.path.join" && argsTruthy args then
            match args with
            | .malformed => .error ()
            | .ok l =>
                let results := l.map fun a => recurse (some a)
                let sub_labels := results.map fun t => t.2.1
                let all_safe := results.all fun t =>
                  !(strContains t.2.1 "unknown" || strContains t.2.1 "input" ||
                    strContains t.2.1 "tainted")
                let joined :=
                  "os.path.join(" ++ strJoin ", " sub_labels ++ ")"
                .ok (joined, joined, if all_safe then "LOW" else "HIGH")
          else
            match func_info with
            | some info =>
                (match firstDirectReturn info.node with
                 | some v => .ok (recurse v)
                 | none => .ok unknownTriple)
            | none => .ok unknownTriple
  | some (.ConstStr s _) =>
      if strContains (strLower s) "pickle" || strContains (strLower s) "pkl" then
        .ok (s!"pickle file: '{s}'", s!"'{s}' (pickle file)", "HIGH")
      else
        .ok (s!"file: '{s}'", s!"'{s}'", "MEDIUM")
  | some (.ConstOther v _) =>
      .ok (s!"constant '{v}'", s!"constant '{v}'", "LOW")
  | some (.Attr value attr ln) =>
      let a := get_attribute_path (.Attr value attr ln)
      if requestAttrs.contains a then
        .ok (s!"{a} (attribute)", s!"{a} (attribute)", "HIGH")
      else
        .ok (s!"{a} (attribute)", s!"{a} (attribute)", "LOW")
  | some (.Subscript value slice _) =>
      let t := recurse (some value)
      let value_initial := t.1
      let value_flow := t.2.1
      let value_risk := t.2.2
      let subscript_desc :=
        match slice with
        | .ConstStr k _ => s!"['{k}']"
        | .ConstOther k _ => s!"['{k}']"
        | .Name k _ => s!"[{k}]"
        | _ => "[...]"
      if strContains value_flow "request.form" then
        .ok (s!"request.form{subscript_desc} (HTTP POST form data)",
             s!"request.form{subscript_desc} (HTTP POST form data)", "HIGH")
      else if strContains value_flow "request.args" then
        .ok (s!"request.args{subscript_desc} (HTTP GET query parameter)",
             s!"request.args{subscript_desc} (HTTP GET query parameter)",
             "HIGH")
      else if strContains value_flow "request.json" then
        .ok (s!"request.json{subscript_desc} (HTTP JSON body)",
             s!"request.json{subscript_desc} (HTTP JSON body)", "HIGH")
      else if strContains value_flow "request.files" then
        .ok (s!"request.files{subscript_desc} (HTTP file upload)",
             s!"request.files{subscript_desc} (HTTP file upload)", "HIGH")
      else
        .ok (value_initial, s!"{value_flow}{subscript_desc}", value_risk)
  | some (.BinOpAdd left right _) =>
      let tl := recurse (some left)
      let tr := recurse (some right)
      let left_initial := tl.1
      let left_flow := tl.2.1
      let right_flow := tr.2.1
      .ok (left_initial, s!"{left_flow} + {right_flow}", "LOW")
  | _ => .ok unknownTriple

/-- SinkVisitor.trace_source with the recursion made structural on a fuel
argument.  The depth cap `depth > 5` is checked first, exactly as in the
source; with fuel `6 - depth` the fuel-spent branch is unreachable (see
`trace_sourceF_fuel_irrel`). -/
def trace_sourceF : Nat → TraceEnv → Option Ast → Nat → Triple
  | fuel, env, node, depth =>
    if 5 < depth then limitTriple
    else
      match fuel with
      | 0 => limitTriple
      | f + 1 =>
          match traceBodyE (fun m => trace_sourceF f env m (depth + 1)) env
              node with
          | .ok t => t
          | .error _ => errTriple

/-- SinkVisitor.trace_source: trace the origin of data passed to a
deserialization sink, returning (initial_source, full_flow, risk). -/
def trace_source (env : TraceEnv) (node : Option Ast) (depth : Nat) : Triple :=
  trace_sourceF (6 - depth) env node depth

/-! ## Context detection (SinkVisitor.detect_context) -/

/-- The context dictionary attached to a function name; an absent key is
`none` and the empty dictionary is the record with every field `none`. -/
structure Context where
  http_endpoint : Option String := none
  http_method : Option String := none
  operation_type : Option String := none
  function_name : Option String := none
deriving DecidableEq

/-- The empty context dictionary. -/
def emptyCtx : Context := {}

/-- Function-name patterns of is_file_operation_function. -/
def file_patterns : List String :=
  [ "load", "save", "read", "write", "open", "close", "extract",
    "deserialize", "unpickle", "import", "export", "backup", "restore" ]

/-- Docstring keywords of is_file_operation_function. -/
def file_keywords : List String :=
  [ "file", "pickle", "load", "save", "extract", "deserialize" ]

/-- Function-name patterns of is_task_function. -/
def task_patterns : List String :=
  [ "task", "job", "work", "execute", "run", "process", "compute",
    "worker", "runner", "handler", "do_work" ]

/-- SinkVisitor.is_file_operation_function: the function name contains a
file pattern, or its leading string-literal docstring contains a file
keyword (a non-string leading constant raises inside the inner
`try` and is swallowed, yielding false). -/
def is_file_operation_function (name : String) (body : List Ast) : Bool :=
  file_patterns.any (fun p => strContains (strLower name) p) ||
    (match body with
     | .ExprStmt (.ConstStr doc _) _ :: _ =>
         file_keywords.any fun k => strContains (strLower doc) k
     | _ => false)

/-- SinkVisitor.is_task_function: the function name contains a task
pattern. -/
def is_task_function (name : String) : Bool :=
  task_patterns.any fun p => strContains (strLower name) p

/-- Reading `.value` of a supposed constant node (`decorator.args[0].value`
and `elt.value` in detect_context); a non-constant node has no such
attribute and the access raises, modelled as `throw ()`.  The printable
value of a non-string constant is its carried rendering. -/
def constValue : Ast → Except Unit String
  | .ConstStr s _ => .ok s
  | .ConstOther v _ => .ok v
  | _ => .error ()

/-- The `methods` extraction loop over a route decorator's keywords:
a list literal of constants is joined with ", ", a single constant is
taken as-is, anything else is ignored. -/
def methodsScan (kws : List (Option String × Ast)) (ctx : Context) :
    Except Unit Context :=
  match kws with
  | [] => .ok ctx
  | (arg, value) :: rest =>
      if arg == some "methods" then
        match value with
        | .ListExpr elts _ =>
            (match elts.mapM constValue with
             | .ok methods =>
                 methodsScan rest { ctx with http_method := some (strJoin ", " methods) }
             | .error _ => .error ())
        | .ConstStr s _ => methodsScan rest { ctx with http_method := some s }
        | .ConstOther v _ => methodsScan rest { ctx with http_method := some v }
        | _ => methodsScan rest ctx
      else methodsScan rest ctx

/-- The decorator loop of detect_context: scan for the first route
decorator (`@x.route(...)` or `@route(...)`), record its endpoint and
methods, and stop at it (`break`); a malformed argument list or a
non-constant first argument raises out of the scan. -/
def routeScan (decs : List Ast) (ctx : Context) : Except Unit Context :=
  match decs with
  | [] => .ok ctx
  | d :: rest =>
      match d with
      | .Call (.Attr _ attr _) args kws _ =>
          if attr == "route" then
            (match args with
             | .malformed => .error ()
             | .ok [] => methodsScan kws ctx
             | .ok (a :: _) =>
                 match constValue a with
                 | .ok v => methodsScan kws { ctx with http_endpoint := some v }
                 | .error _ => .error ())
          else routeScan rest ctx
      | .Call (.Name nm _) args _ _ =>
          if nm == "route" then
            (match args with
             | .malformed => .error ()
             | .ok [] => .ok ctx
             | .ok (a :: _) =>
                 match constValue a with
                 | .ok v => .ok { ctx with http_endpoint := some v }
                 | .error _ => .error ())
          else routeScan rest ctx
      | _ => routeScan rest ctx

/-- The per-function body of detect_context: route decorators first, then
the file-operation tag, then the task tag — the later assignment to
`context['operation_type']` overwrites the earlier one. -/
def detectOne (name : String) (decs : List Ast) (body : List Ast) :
    Except Unit Context :=
  match routeScan decs emptyCtx with
  | .error _ => .error ()
  | .ok c0 =>
      let c1 :=
        if is_file_operation_function name body then
          { c0 with operation_type := some "file_operation",
                    function_name := some name }
        else c0
      let c2 :=
        if is_task_function name then
          { c1 with operation_type := some "task_execution",
                    function_name := some name }
        else c1
      .ok c2

/-- Store `context` under the function's name (Python dict assignment:
last write wins for lookups). -/
def assocSet (m : List (String × Context)) (k : String) (v : Context) :
    List (String × Context) :=
  (m.filter fun p => p.1 != k) ++ [(k, v)]

/-- SinkVisitor.detect_context: walk all function definitions of the file
and map each function name to its detected context; a function with the
empty context is not recorded. -/
def detect_context (tree : Ast) : Except Unit (List (String × Context)) :=
  (walk tree).foldlM
    (fun acc n =>
      match n with
      | .FunctionDef name decs body _ =>
          (match detectOne name decs body with
           | .error _ => .error ()
           | .ok c =>
               .ok (if c = emptyCtx then acc else assocSet acc name c))
      | _ => .ok acc)
    []

/-! ## The sink visitor (SinkVisitor.visit_*) -/

/-- analyzer.Finding: a single vulnerability finding. -/
structure Finding where
  sink : String
  initial_source : String
  flow : String
  filename : String
  lineno : Nat
  risk : String
  context : Context
deriving DecidableEq

/-- Mutable visitor state: the tainted-identifier set (`tainted_files`),
the enclosing function name, and the findings accumulated so far. -/
structure VState where
  tainted : List String
  current_function : Option String
  findings : List Finding
deriving DecidableEq

/-- Read-only environment of one file traversal: the file and project
indices and the precomputed function-context map. -/
structure VEnv where
  fi : FileIndex
  pi : ProjectIndex
  ctx : List (String × Context)

/-- Python `set.add`. -/
def addTaint (l : List String) (x : String) : List String :=
  if l.contains x then l else l ++ [x]

/-- `self.function_contexts.get(self.current_function, {})` (the key
`None` is never present, so it yields the empty dictionary). -/
def ctxLookup (m : List (String × Context)) : Option String → Context
  | none => emptyCtx
  | some n => (m.lookup n).getD emptyCtx

/-- The taint rule of visit_Assign: a target of an assignment whose value
is a subscript of `request.files` becomes tainted. -/
def assignTaint (s : VState) (targets : List Ast) (value : Ast) : VState :=
  if isReqFilesSub value then
    { s with
      tainted := targets.foldl
        (fun acc t =>
          match t with
          | .Name id _ => addTaint acc id
          | _ => acc)
        s.tainted }
  else s

/-- The taint-propagation block of visit_Call (`file.save(file_path)`):
returns the updated state and whether evaluating `node.args[0]` raised
(malformed args are truthy, so the guard passes and the indexing
raises). -/
def taintStep (s : VState) (func : Ast) (args : Args) : VState × Bool :=
  match func with
  | .Attr (.Name file_var _) "save" _ =>
      if argsTruthy args then
        if s.tainted.contains file_var then
          match args with
          | .ok (.Name id _ :: _) =>
              ({ s with tainted := addTaint s.tainted id }, false)
          | .ok (_ :: _) => (s, false)
          | .ok [] => (s, false)
          | .malformed => (s, true)
        else (s, false)
      else (s, false)
  | _ => (s, false)

/-- The sink-handling block of visit_Call: when the resolved name is in
the sink catalog, trace the first argument's provenance, enrich the flow
with the enclosing function's context, and append the finding.  When the
args value is malformed, `node.args[0] if node.args else None` raises and
the surrounding handler drops to `generic_visit` without a finding. -/
def sinkStep (env : VEnv) (s : VState) (sink_name : String) (args : Args)
    (lineno : Nat) : VState :=
  if SINKS.contains sink_name then
    match args with
    | .malformed => s
    | .ok l =>
        let source_node := l.head?
        let t := trace_source ⟨s.tainted, env.fi, env.pi⟩ source_node 0
        let initial_source := t.1
        let flow := t.2.1
        let risk := t.2.2
        let context := ctxLookup env.ctx s.current_function
        let enhanced_flow :=
          if (match context.http_endpoint with
              | some e => e != ""
              | none => false) && strContains flow "request." then
            let endpoint := (context.http_endpoint).getD ""
            let method := (context.http_method).getD "GET"
            s!"HTTP {method} {endpoint} → {flow}"
          else if context.operation_type == some "file_operation" then
            let function_name := (context.function_name).getD "unknown"
            s!"File Operation ({function_name}) → {flow}"
          else if context.operation_type == some "task_execution" then
            let function_name := (context.function_name).getD "unknown"
            s!"Task Execution ({function_name}) → {flow}"
          else flow
        { s with
          findings := s.findings ++
            [{ sink := sink_name, initial_source := initial_source,
               flow := enhanced_flow, filename := env.fi.filename,
               lineno := lineno, risk := risk, context := context }] }
  else s

mutual

/-- One dispatch of `NodeVisitor.visit`: visit_FunctionDef, visit_Assign
and visit_Call are overridden; every other node goes to `generic_visit`,
which visits the children in field order.  Fuel makes the mutual recursion
structural; with fuel at least `astSize` of the node the fuel-spent branch
is unreachable. -/
def visitF : Nat → VEnv → VState → Ast → VState
  | 0, _, s, _ => s
  | fuel + 1, env, s, a =>
      match a with
      | .FunctionDef name _ _ _ =>
          let s1 := { s with current_function := some name }
          let s2 := visitListF fuel env s1 (astChildren a)
          { s2 with current_function := none }
      | .Assign targets value _ =>
          let s1 := assignTaint s targets value
          visitListF fuel env s1 (astChildren a)
      | .Call func args _ lineno =>
          let sink_name := extract_full_func_name func env.fi.imports
          let step := taintStep s func args
          let s2 := if step.2 then step.1
                    else sinkStep env step.1 sink_name args lineno
          visitListF fuel env s2 (astChildren a)
      | _ => visitListF fuel env s (astChildren a)

/-- Visit a list of child nodes left to right. -/
def visitListF : Nat → VEnv → VState → List Ast → VState
  | 0, _, s, _ => s
  | _ + 1, _, s, [] => s
  | fuel + 1, env, s, x :: xs => visitListF fuel env (visitF fuel env s x) xs

end

/-- The findings produced by one file traversal started from the empty
state (SinkVisitor construction plus `visitor.visit(file_index.tree)`). -/
def analyze_file (env : VEnv) (tree : Ast) : List Finding :=
  (visitF (astSize tree) env ⟨[], none, []⟩ tree).findings

/-- The sort rank of analyze_index: `RISK_LEVELS.get(f.risk, 3)`. -/
def riskRank (risk : String) : Nat :=
  if risk = "HIGH" then 0
  else if risk = "MEDIUM" then 1
  else if risk = "LOW" then 2
  else 3

mutual

/-- A tree is well formed when no call node carries a malformed `args`
value — true of every tree produced by `ast.parse`. -/
def wfF : Nat → Ast → Bool
  | 0, _ => true
  | fuel + 1, a =>
      (match a with
       | .Call _ .malformed _ _ => false
       | _ => true) && wfListF fuel (astChildren a)

def wfListF : Nat → List Ast → Bool
  | 0, _ => true
  | _ + 1, [] => true
  | fuel + 1, x :: xs => wfF fuel x && wfListF fuel xs

end

mutual

/-- The sink-call census of a tree: the resolved callee name and line of
every call node whose name is in the sink catalog, listed in visitor
(preorder, parent before children) order.  This is a purely syntactic
description, independent of the visitor state, against which the
traversal's findings are compared. -/
def expF (imports : List (String × String)) : Nat → Ast → List (String × Nat)
  | 0, _ => []
  | fuel + 1, a =>
      (match a with
       | .Call func _ _ lineno =>
           let n := extract_full_func_name func imports
           if SINKS.contains n then [(n, lineno)] else []
       | _ => []) ++ expListF imports fuel (astChildren a)

def expListF (imports : List (String × String)) :
    Nat → List Ast → List (String × Nat)
  | 0, _ => []
  | _ + 1, [] => []
  | fuel + 1, x :: xs => expF imports fuel x ++ expListF imports fuel xs

end

/-- The sink-call census of a whole file. -/
def sinkCallSites (imports : List (String × String)) (tree : Ast) :
    List (String × Nat) :=
  expF imports (astSize tree) tree

/-- The (sink, line) key of a finding. -/
def findingKeys (l : List Finding) : List (String × Nat) :=
  l.map fun f => (f.sink, f.lineno)

/-- A tree is well formed (no malformed args values anywhere). -/
def wellFormed (tree : Ast) : Bool :=
  wfF (astSize tree) tree

/-! ## Step lemmas for the visitor -/

theorem addTaint_mono (l : List String) (x : String) : l ⊆ addTaint l x := by
  intro y hy
  unfold addTaint
  split
  · exact hy
  · exact List.mem_append_left _ hy

theorem assignTaint_findings (s : VState) (targets : List Ast) (value : Ast) :
    (assignTaint s targets value).findings = s.findings := by
  unfold assignTaint
  split <;> rfl

theorem assignTaint_current (s : VState) (targets : List Ast) (value : Ast) :
    (assignTaint s targets value).current_function = s.current_function := by
  unfold assignTaint
  split <;> rfl

theorem foldl_addTaint_mono (targets : List Ast) :
    ∀ acc : List String,
      acc ⊆ targets.foldl
        (fun acc t =>
          match t with
          | .Name id _ => addTaint acc id
          | _ => acc)
        acc := by
  induction targets with
  | nil => intro acc; exact fun _ h => h
  | cons t rest ih =>
      intro acc
      refine List.Subset.trans ?_ (by simpa using ih _)
      match t with
      | .Name id _ => exact addTaint_mono acc id
      | .Attr _ _ _ => exact fun _ h => h
      | .Subscript _ _ _ => exact fun _ h => h
      | .Call _ _ _ _ => exact fun _ h => h
      | .ConstStr _ _ => exact fun _ h => h
      | .ConstOther _ _ => exact fun _ h => h
      | .ListExpr _ _ => exact fun _ h => h
      | .BinOpAdd _ _ _ => exact fun _ h => h
      | .Assign _ _ _ => exact fun _ h => h
      | .With _ _ _ => exact fun _ h => h
      | .FunctionDef _ _ _ _ => exact fun _ h => h
      | .Return _ _ => exact fun _ h => h
      | .ExprStmt _ _ => exact fun _ h => h
      | .Module _ => exact fun _ h => h
      | .Other _ _ => exact fun _ h => h

theorem assignTaint_tainted_mono (s : VState) (targets : List Ast)
    (value : Ast) : s.tainted ⊆ (assignTaint s targets value).tainted := by
  unfold assignTaint
  split
  · exact foldl_addTaint_mono targets s.tainted
  · exact fun _ h => h

theorem taintStep_findings (s : VState) (func : Ast) (args : Args) :
    (taintStep s func args).1.findings = s.findings := by
  unfold taintStep
  split <;> (try rfl) <;> (repeat' split) <;> rfl

theorem taintStep_current (s : VState) (func : Ast) (args : Args) :
    (taintStep s func args).1.current_function = s.current_function := by
  unfold taintStep
  split <;> (try rfl) <;> (repeat' split) <;> rfl

theorem taintStep_tainted_mono (s : VState) (func : Ast) (args : Args) :
    s.tainted ⊆ (taintStep s func args).1.tainted := by
  unfold taintStep
  split <;> (try exact fun _ h => h) <;> (repeat' split) <;>
    first
      | exact fun _ h => h
      | exact addTaint_mono _ _

theorem taintStep_ok_not_raised (s : VState) (func : Ast) (l : List Ast) :
    (taintStep s func (.ok l)).2 = false := by
  unfold taintStep
  split <;> (try rfl) <;> (repeat' split) <;> first | rfl | simp_all

theorem sinkStep_tainted (env : VEnv) (s : VState) (n : String) (args : Args)
    (ln : Nat) : (sinkStep env s n args ln).tainted = s.tainted := by
  unfold sinkStep
  split
  · cases args <;> rfl
  · rfl

theorem sinkStep_current (env : VEnv) (s : VState) (n : String) (args : Args)
    (ln : Nat) :
    (sinkStep env s n args ln).current_function = s.current_function := by
  unfold sinkStep
  split
  · cases args <;> rfl
  · rfl

/-! ## Monotonicity of the tainted set -/

theorem visit_tainted_mono :
    ∀ fuel : Nat,
      (∀ env s a, s.tainted ⊆ (visitF fuel env s a).tainted) ∧
      (∀ env s l, s.tainted ⊆ (visitListF fuel env s l).tainted) := by
  intro fuel
  induction fuel with
  | zero =>
      constructor
      · intro env s a
        simp only [visitF]
        exact fun _ h => h
      · intro env s l
        simp only [visitListF]
        exact fun _ h => h
  | succ f ih =>
      obtain ⟨ihA, ihL⟩ := ih
      constructor
      · intro env s a
        cases a <;> simp only [visitF]
        case Assign targets value ln =>
          exact List.Subset.trans (assignTaint_tainted_mono s targets value)
            (ihL env _ _)
        case Call func args kws ln =>
          have h2 :
              ((if (taintStep s func args).2 then (taintStep s func args).1
                else sinkStep env (taintStep s func args).1
                  (extract_full_func_name func env.fi.imports) args ln)).tainted
              = (taintStep s func args).1.tainted := by
            split
            · rfl
            · exact sinkStep_tainted env _ _ args ln
          refine List.Subset.trans (taintStep_tainted_mono s func args) ?_
          have h3 := ihL env
            (if (taintStep s func args).2 then (taintStep s func args).1
             else sinkStep env (taintStep s func args).1
               (extract_full_func_name func env.fi.imports) args ln)
            (astChildren (.Call func args kws ln))
          rw [h2] at h3
          exact h3
        case FunctionDef name decs body ln =>
          exact ihL env { s with current_function := some name } _
        all_goals exact ihL env _ _
      · intro env s l
        match l with
        | [] =>
            simp only [visitListF]
            exact fun _ h => h
        | x :: xs =>
            simp only [visitListF]
            exact List.Subset.trans (ihA env s x) (ihL env _ xs)

/-! ## Risk values of the tracer -/

/-- The three legal risk strings (the keys of `RISK_LEVELS`). -/
def riskStrings : List String := ["HIGH", "MEDIUM", "LOW"]

theorem traceBodyE_risk (recurse : Option Ast → Triple) (env : TraceEnv)
    (node : Option Ast)
    (h : ∀ m, riskStrings.contains (recurse m).2.2 = true) :
    ∀ t, traceBodyE recurse env node = .ok t →
      riskStrings.contains t.2.2 = true := by
  intro t ht
  unfold traceBodyE at ht
  repeat' split at ht
  all_goals (try (simp at ht))
  all_goals (repeat' split at ht)
  all_goals (try (simp at ht))
  all_goals subst ht
  all_goals (try (exact h _))
  all_goals simp [riskStrings, unknownTriple]

theorem trace_sourceF_risk :
    ∀ (fuel : Nat) (env : TraceEnv) (node : Option Ast) (depth : Nat),
      riskStrings.contains (trace_sourceF fuel env node depth).2.2 = true := by
  intro fuel
  induction fuel with
  | zero =>
      intro env node depth
      simp only [trace_sourceF]
      split
      · simp [limitTriple, riskStrings]
      · simp [limitTriple, riskStrings]
  | succ f ih =>
      intro env node depth
      simp only [trace_sourceF]
      split
      · simp [limitTriple, riskStrings]
      · split
        · next heq =>
            exact traceBodyE_risk _ env node (fun m => ih env m (depth + 1)) _
              heq
        · simp [errTriple, riskStrings]

/-- Every triple returned by trace_source carries one of the three legal
risk strings. -/
theorem trace_source_risk (env : TraceEnv) (node : Option Ast) (depth : Nat) :
    riskStrings.contains (trace_source env node depth).2.2 = true :=
  trace_sourceF_risk _ env node depth

/-! ## Findings produced by the traversal -/

theorem sinkStep_ok_keys (env : VEnv) (s : VState) (n : String)
    (l : List Ast) (ln : Nat) :
    findingKeys (sinkStep env s n (.ok l) ln).findings =
      findingKeys s.findings ++
        (if SINKS.contains n then [(n, ln)] else []) := by
  unfold sinkStep
  split
  · simp [findingKeys]
  · simp [findingKeys]

theorem sinkStep_findings_risk (env : VEnv) (s : VState) (n : String)
    (args : Args) (ln : Nat)
    (hs : ∀ fnd ∈ s.findings, riskStrings.contains fnd.risk = true) :
    ∀ fnd ∈ (sinkStep env s n args ln).findings,
      riskStrings.contains fnd.risk = true := by
  unfold sinkStep
  split
  · cases args with
    | malformed => exact hs
    | ok l =>
        intro fnd hf
        simp only [List.mem_append, List.mem_singleton] at hf
        rcases hf with hf | hf
        · exact hs fnd hf
        · subst hf
          exact trace_source_risk ⟨s.tainted, env.fi, env.pi⟩ l.head? 0
  · exact hs

theorem astSize_pos (a : Ast) : 1 ≤ astSize a := by
  rw [astSize_children]
  omega

theorem visit_findings_risk :
    ∀ fuel : Nat,
      (∀ env s a,
        (∀ fnd ∈ s.findings, riskStrings.contains fnd.risk = true) →
        ∀ fnd ∈ (visitF fuel env s a).findings,
          riskStrings.contains fnd.risk = true) ∧
      (∀ env s l,
        (∀ fnd ∈ s.findings, riskStrings.contains fnd.risk = true) →
        ∀ fnd ∈ (visitListF fuel env s l).findings,
          riskStrings.contains fnd.risk = true) := by
  intro fuel
  induction fuel with
  | zero =>
      constructor
      · intro env s a hs
        simpa only [visitF] using hs
      · intro env s l hs
        simpa only [visitListF] using hs
  | succ f ih =>
      obtain ⟨ihA, ihL⟩ := ih
      constructor
      · intro env s a hs
        cases a <;> simp only [visitF]
        case Assign targets value ln =>
          refine ihL env _ _ ?_
          rw [assignTaint_findings]
          exact hs
        case Call func args kws ln =>
          refine ihL env _ _ ?_
          split
          · rw [taintStep_findings]
            exact hs
          · refine sinkStep_findings_risk env _ _ args ln ?_
            rw [taintStep_findings]
            exact hs
        case FunctionDef name decs body ln =>
          exact ihL env { s with current_function := some name } _ hs
        all_goals exact ihL env _ _ hs
      · intro env s l hs
        match l with
        | [] => simpa only [visitListF] using hs
        | x :: xs =>
            simp only [visitListF]
            exact ihL env _ xs (ihA env s x hs)

theorem visit_keys :
    ∀ fuel : Nat,
      (∀ env s a, astSize a ≤ fuel → wfF fuel a = true →
        findingKeys (visitF fuel env s a).findings =
          findingKeys s.findings ++ expF env.fi.imports fuel a) ∧
      (∀ env s l, listSize l ≤ fuel → wfListF fuel l = true →
        findingKeys (visitListF fuel env s l).findings =
          findingKeys s.findings ++ expListF env.fi.imports fuel l) := by
  intro fuel
  induction fuel with
  | zero =>
      constructor
      · intro env s a ha _
        exact absurd ha (by have := astSize_pos a; omega)
      · intro env s l hl _
        match l with
        | [] => simp [visitListF, expListF]
        | x :: xs =>
            exfalso
            have := astSize_pos x
            simp only [listSize] at hl
            omega
  | succ f ih =>
      obtain ⟨ihA, ihL⟩ := ih
      constructor
      · intro env s a hsz hwf
        have hch : listSize (astChildren a) ≤ f := by
          have h1 := astSize_children a
          omega
        cases a
        case Assign targets value ln =>
          simp only [visitF, expF]
          simp only [wfF] at hwf
          have h2 := ihL env (assignTaint s targets value) _ hch
            (by simpa using hwf)
          rw [assignTaint_findings] at h2
          simpa using h2
        case FunctionDef name decs body ln =>
          simp only [visitF, expF]
          simp only [wfF] at hwf
          have h2 := ihL env { s with current_function := some name } _ hch
            (by simpa using hwf)
          simpa using h2
        case Call func args kws ln =>
          simp only [wfF] at hwf
          cases args with
          | malformed => simp at hwf
          | ok l =>
              have hwf2 : wfListF f (astChildren (.Call func (.ok l) kws ln))
                  = true := by simpa using hwf
              simp only [visitF, expF]
              rw [taintStep_ok_not_raised]
              simp only [Bool.false_eq_true, if_false]
              have h2 := ihL env
                (sinkStep env (taintStep s func (.ok l)).1
                  (extract_full_func_name func env.fi.imports) (.ok l) ln)
                _ hch hwf2
              rw [sinkStep_ok_keys, taintStep_findings] at h2
              rw [h2]
              simp [List.append_assoc]
        all_goals
          (simp only [visitF, expF]
           simp only [wfF] at hwf
           have h2 := ihL env s _ hch (by simpa using hwf)
           simpa using h2)
      · intro env s l hsz hwf
        match l with
        | [] => simp [visitListF, expListF]
        | x :: xs =>
            simp only [visitListF, expListF]
            simp only [wfListF, Bool.and_eq_true] at hwf
            have hx : astSize x ≤ f := by
              simp only [listSize] at hsz
              omega
            have hxs : listSize xs ≤ f := by
              simp only [listSize] at hsz
              omega
            rw [ihL env _ xs hxs hwf.2, ihA env s x hx hwf.1]
            simp [List.append_assoc]

/-! ## Depth cap and fuel irrelevance of the tracer -/

theorem traceBodyE_congr (r1 r2 : Option Ast → Triple) (h : ∀ m, r1 m = r2 m)
    (env : TraceEnv) (node : Option Ast) :
    traceBodyE r1 env node = traceBodyE r2 env node := by
  have h2 : r1 = r2 := funext h
  rw [h2]

/-- At any fuel, above the depth cap the tracer returns the
recursion-limit triple before recursing. -/
theorem trace_sourceF_cap (fuel : Nat) (env : TraceEnv) (node : Option Ast)
    (depth : Nat) (h : 5 < depth) :
    trace_sourceF fuel env node depth = limitTriple := by
  cases fuel with
  | zero =>
      simp only [trace_sourceF]
      rw [if_pos h]
  | succ f =>
      simp only [trace_sourceF]
      rw [if_pos h]

/-- Any fuel of at least `6 - depth` computes the same triple as
trace_source itself: the recursion never makes more than `6 - depth`
nested entries below depth `depth` (so at most 6 per sink argument, which
enters at depth 0). -/
theorem trace_sourceF_fuel_irrel :
    ∀ (f : Nat) (env : TraceEnv) (node : Option Ast) (depth : Nat),
      6 - depth ≤ f →
      trace_sourceF f env node depth = trace_source env node depth := by
  intro f
  induction f with
  | zero =>
      intro env node depth h
      have h0 : 6 - depth = 0 := by omega
      unfold trace_source
      rw [h0]
  | succ f ih =>
      intro env node depth h
      by_cases hd : 5 < depth
      · unfold trace_source
        rw [trace_sourceF_cap _ _ _ _ hd, trace_sourceF_cap _ _ _ _ hd]
      · have hdd : 6 - depth = (5 - depth) + 1 := by omega
        unfold trace_source
        rw [hdd]
        simp only [trace_sourceF]
        rw [if_neg hd, if_neg hd]
        have hc : (fun m => trace_sourceF f env m (depth + 1)) =
            fun m => trace_sourceF (5 - depth) env m (depth + 1) := by
          funext m
          have h1 := ih env m (depth + 1) (by omega)
          unfold trace_source at h1
          rw [show 6 - (depth + 1) = 5 - depth from by omega] at h1
          exact h1
        rw [hc]

/-- Above the depth cap trace_source returns the recursion-limit triple. -/
theorem trace_source_depth_cap (env : TraceEnv) (node : Option Ast)
    (depth : Nat) (h : 5 < depth) :
    trace_source env node depth =
      ("unknown", "unknown (recursion limit)", "MEDIUM") := by
  unfold trace_source
  rw [trace_sourceF_cap _ _ _ _ h]
  rfl

/-! ## AST loader and safe root (ast_parser.py)

File paths are modelled as their resolved absolute component lists (the
Python code applies `os.path.abspath` to both arguments before
comparing). -/

/-- os.path.commonpath of two absolute paths: the longest common prefix of
their component lists (the Windows-only `ValueError` branch of differing
drives does not arise for such paths). -/
def commonPath : List String → List String → List String
  | x :: xs, y :: ys => if x = y then x :: commonPath xs ys else []
  | _, _ => []

/-- ast_parser._is_path_within_root: the common path of root and candidate
equals the root. -/
def is_path_within_root (filepath root : List String) : Bool :=
  commonPath root filepath == root

/-- What the filesystem holds at a path: nothing readable, content the
parser rejects, or parseable code. -/
inductive FileData where
  | unreadable
  | unparseable (source : String)
  | code (tree : Ast) (source : String)

/-- ast_parser.parse_file_to_ast over a filesystem `fs`: the safe-root
check runs before the `try` block, so its failure is an uncaught exception
(modelled as `Except.error` carrying the offending path and root);
read and parse failures inside the `try` are caught and returned as
`(filepath, none, none)`.  The second component is the list of paths the
function opened for reading. -/
def parse_file_to_ast (fs : List String → FileData) (filepath : List String)
    (safe_root : Option (List String)) (cwd : List String) :
    Except (List String × List String)
        (List String × Option Ast × Option String) ×
      List (List String) :=
  let root := match safe_root with | none => cwd | some r => r
  if is_path_within_root filepath root then
    match fs filepath with
    | .unreadable => (.ok (filepath, none, none), [filepath])
    | .unparseable _ => (.ok (filepath, none, none), [filepath])
    | .code tree src => (.ok (filepath, some tree, some src), [filepath])
  else (.error (filepath, root), [])

/-! ## Legacy print detection (indexer.py) -/

/-- indexer.detect_py2_print over the split source lines: a stripped line
that starts with `"print "` and does not start with `"print("`. -/
def detect_py2_print (lines : List String) : Bool :=
  lines.any fun line =>
    startsChars (pyStrip line.data) "print ".data &&
      !(startsChars (pyStrip line.data) "print(".data)

/-- The skip decision of index_project: a file is skipped as legacy
dialect exactly when the heuristic fires and `py2_mode` is off. -/
def legacy_skip (lines : List String) (py2_mode : Bool) : Bool :=
  detect_py2_print lines && !py2_mode

/-- Modelled from the spec: the claimed heuristic, read literally — the
line starts with `print ` followed by a non-parenthesis character. -/
def spec_legacy_line (line : String) : Bool :=
  startsChars line.data "print ".data &&
    (match line.data.drop 6 with
     | c :: _ => c != '('
     | [] => false)

/-- Modelled from the spec: a file is flagged when some line satisfies
`spec_legacy_line`. -/
def spec_detect_py2 (lines : List String) : Bool :=
  lines.any spec_legacy_line

/-! ## Filename sanitization (utils.py, report.py) -/

/-- The terminal path component as computed by `pathlib.Path(...).name` on
a POSIX path: split at `/`, discard empty and `.` components, take the
last one (the empty string when none remain). -/
def posixPathName (cs : List Char) : List Char :=
  (((splitCh '/' cs).filter fun c => !(c = [] || c = ['.'])).getLast?).getD []

/-- utils.sanitize_filename: substitute `unnamed` for a falsy input, keep
only the terminal path component, truncate to 100 characters, substitute
`unnamed` when the component is empty (the `except` fallback is
unreachable: no step raises). -/
def sanitize_filename (filename : String) : String :=
  if filename = "" then "unnamed"
  else
    let name0 := posixPathName filename.data
    let safe_name := if 100 < name0.length then name0.take 100 else name0
    if safe_name = [] then "unnamed"
    else String.mk safe_name

/-- report.export_html_report's output file name:
`f"{project_name}_{timestamp}.html"` after sanitization. -/
def export_html_filename (project_name timestamp : String) : String :=
  sanitize_filename project_name ++ "_" ++ timestamp ++ ".html"

/-! ## Properties of the sanitized filename -/

theorem mem_of_getLast? {α : Type} : ∀ {l : List α} {a : α},
    l.getLast? = some a → a ∈ l := by
  intro l
  induction l with
  | nil =>
      intro a h
      simp [List.getLast?] at h
  | cons x xs ih =>
      intro a h
      cases xs with
      | nil =>
          simp [List.getLast?] at h
          subst h
          simp
      | cons y ys =>
          rw [List.getLast?_cons_cons] at h
          exact List.mem_cons_of_mem x (ih h)

theorem splitCh_not_mem (c : Char) :
    ∀ (cs : List Char) (chunk : List Char),
      chunk ∈ splitCh c cs → c ∉ chunk := by
  intro cs
  induction cs with
  | nil =>
      intro chunk h
      simp only [splitCh, List.mem_singleton] at h
      subst h
      simp
  | cons x xs ih =>
      intro chunk h
      simp only [splitCh] at h
      split at h
      · next hx =>
          rcases List.mem_cons.mp h with h1 | h1
          · subst h1
            simp
          · exact ih chunk h1
      · next hx =>
          have hxc : ¬ c = x := by
            intro hcx
            exact hx (by simp [hcx])
          cases hsp : splitCh c xs with
          | nil =>
              rw [hsp] at h
              simp only [List.mem_singleton] at h
              subst h
              simp [hxc]
          | cons hd tl =>
              rw [hsp] at h
              rcases List.mem_cons.mp h with h1 | h1
              · subst h1
                intro hmem
                rcases List.mem_cons.mp hmem with h2 | h2
                · exact hxc h2
                · exact ih hd (hsp ▸ List.mem_cons_self hd tl) h2
              · exact ih chunk (hsp ▸ List.mem_cons_of_mem hd h1)

theorem posixPathName_no_slash (cs : List Char) :
    '/' ∉ posixPathName cs := by
  unfold posixPathName
  cases hl : (((splitCh '/' cs).filter fun c => !(c = [] || c = ['.'])).getLast?)
      with
  | none => simp
  | some chunk =>
      simp only [Option.getD_some]
      have h1 : chunk ∈ (splitCh '/' cs).filter fun c => !(c = [] || c = ['.']) :=
        mem_of_getLast? hl
      exact splitCh_not_mem '/' cs chunk (List.mem_of_mem_filter h1)

/-! ## One-step unfolding of trace_source below the cap -/

theorem trace_source_unfold (env : TraceEnv) (node : Option Ast)
    (depth : Nat) (h : depth ≤ 5) :
    trace_source env node depth =
      match traceBodyE (fun m => trace_source env m (depth + 1)) env node with
      | .ok t => t
      | .error _ => errTriple := by
  unfold trace_source
  rw [show 6 - depth = (5 - depth) + 1 from by omega]
  simp only [trace_sourceF]
  rw [if_neg (by omega : ¬ 5 < depth)]
  have hc : (fun m => trace_sourceF (5 - depth) env m (depth + 1)) =
      fun m => trace_source env m (depth + 1) := by
    funext m
    have h1 := trace_sourceF_fuel_irrel (5 - depth) env m (depth + 1) (by omega)
    exact h1
  rw [hc]
  rfl

/-! ## Operation tags of the context detector -/

theorem methodsScan_op :
    ∀ (kws : List (Option String × Ast)) (ctx c : Context),
      methodsScan kws ctx = .ok c →
      c.operation_type = ctx.operation_type ∧
        c.function_name = ctx.function_name := by
  intro kws
  induction kws with
  | nil =>
      intro ctx c h
      simp only [methodsScan] at h
      cases h
      exact ⟨rfl, rfl⟩
  | cons k rest ih =>
      intro ctx c h
      simp only [methodsScan] at h
      split at h
      · split at h
        · split at h
          · have hx := ih _ c h
            exact hx
          · cases h
        · have hx := ih _ c h
          exact hx
        · have hx := ih _ c h
          exact hx
        · have hx := ih _ c h
          exact hx
      · have hx := ih _ c h
        exact hx

theorem routeScan_op :
    ∀ (decs : List Ast) (ctx c : Context),
      routeScan decs ctx = .ok c →
      c.operation_type = ctx.operation_type ∧
        c.function_name = ctx.function_name := by
  intro decs
  induction decs with
  | nil =>
      intro ctx c h
      simp only [routeScan] at h
      cases h
      exact ⟨rfl, rfl⟩
  | cons d rest ih =>
      intro ctx c h
      simp only [routeScan] at h
      split at h
      · split at h
        · split at h
          · cases h
          · have hx := methodsScan_op _ _ c h
            exact hx
          · split at h
            · have hx := methodsScan_op _ _ c h
              exact hx
            · cases h
        · have hx := ih _ c h
          exact hx
      · split at h
        · split at h
          · cases h
          · cases h
            exact ⟨rfl, rfl⟩
          · split at h
            · cases h
              exact ⟨rfl, rfl⟩
            · cases h
        · have hx := ih _ c h
          exact hx
      · have hx := ih _ c h
        exact hx

/-- The operation tag detectOne attaches: the task check runs second and
overwrites the file-operation tag. -/
theorem detectOne_operation (name : String) (decs body : List Ast)
    (c : Context) (h : detectOne name decs body = .ok c) :
    c.operation_type =
        (if is_task_function name then some "task_execution"
         else if is_file_operation_function name body then
           some "file_operation"
         else none) ∧
      c.function_name =
        (if is_task_function name ∨ is_file_operation_function name body then
          some name
         else none) := by
  unfold detectOne at h
  split at h
  · cases h
  · next c0 hr =>
      cases h
      obtain ⟨h1, h2⟩ := routeScan_op decs emptyCtx c0 hr
      by_cases hta : is_task_function name <;>
        by_cases hfi : is_file_operation_function name body <;>
        simp [hta, hfi, h1, h2, emptyCtx]

/-! ## Remaining helper lemmas -/

theorem startsChars_print_space_not_paren (t : List Char)
    (h : startsChars t "print ".data = true) :
    startsChars t "print(".data = false := by
  have e1 : "print ".data = ['p', 'r', 'i', 'n', 't', ' '] := rfl
  have e2 : "print(".data = ['p', 'r', 'i', 'n', 't', '('] := rfl
  rw [e1] at h
  rw [e2]
  match t with
  | [] => simp [startsChars] at h
  | [_] => simp [startsChars] at h
  | [_, _] => simp [startsChars] at h
  | [_, _, _] => simp [startsChars] at h
  | [_, _, _, _] => simp [startsChars] at h
  | [_, _, _, _, _] => simp [startsChars] at h
  | c1 :: c2 :: c3 :: c4 :: c5 :: c6 :: rest =>
      simp only [startsChars, Bool.and_eq_true, beq_iff_eq] at h
      obtain ⟨h1, h2, h3, h4, h5, h6, -⟩ := h
      subst h1 h2 h3 h4 h5 h6
      simp [startsChars]

theorem riskRank_le_two_of_mem (r : String)
    (h : riskStrings.contains r = true) : riskRank r ≤ 2 := by
  have h2 : r ∈ riskStrings := by
    have h3 : riskStrings.elem r = true := h
    exact List.elem_iff.mp h3
  simp only [riskStrings, List.mem_cons, List.mem_singleton,
    List.not_mem_nil, or_false] at h2
  rcases h2 with h2 | h2 | h2 <;> simp [riskRank, h2]

/-! ## Example programs used as witnesses -/

/-- Example file: a tainted-free pickle load through a `with open` binding
plus one non-sink call. -/
def exTree : Ast :=
  .Module
    [ .With
        [(.Call (.Name "open" 2)
            (.ok [.ConstStr "model.pkl" 2, .ConstStr "rb" 2]) [] 2,
          some (.Name "f" 2))]
        [.ExprStmt
          (.Call (.Attr (.Name "pickle" 3) "load" 3) (.ok [.Name "f" 3]) [] 3)
          3]
        2,
      .ExprStmt (.Call (.Name "str" 4) (.ok [.ConstStr "x" 4]) [] 4) 4 ]

/-- File index of the example file. -/
def exFi : FileIndex :=
  { filename := "t.py", tree := exTree, functions := [],
    imports := [("pickle", "pickle")] }

/-- Visitor environment of the example file. -/
def exEnv : VEnv := { fi := exFi, pi := { files := [] }, ctx := [] }

/-- Cyclic self-assignment `x = x` (boundary scenario of the spec). -/
def cycTree : Ast := .Module [.Assign [.Name "x" 1] (.Name "x" 1) 1]

/-- Trace environment over the cyclic file. -/
def cycEnv : TraceEnv :=
  { tainted := [],
    fi := { filename := "cyc.py", tree := cycTree, functions := [],
            imports := [] },
    pi := { files := [] } }

/-! ## Claim C1 -/

/-- C1: for every call node in an analyzed (hence well-formed) file, the
taint tracer produces a finding if and only if the callee name resolved
through the file's import map is in the sink catalog, and it produces
exactly one finding per such call site, carrying the sink call's line:
the (sink, line) keys of the traversal's findings are exactly the
sink-call census of the tree, in traversal order. -/
theorem sink_to_finding_closure (env : VEnv) (tree : Ast)
    (hwf : wellFormed tree = true) :
    findingKeys (analyze_file env tree) =
      sinkCallSites env.fi.imports tree := by
  unfold analyze_file sinkCallSites
  have h := (visit_keys (astSize tree)).1 env ⟨[], none, []⟩ tree
    (Nat.le_refl _) hwf
  rw [h]
  simp [findingKeys]

/-- Witness for C1 at the example file: one finding for the `pickle.load`
call at line 3 and none for the non-sink call. -/
theorem sink_to_finding_closure_witness :
    wellFormed exTree = true ∧
      findingKeys (analyze_file exEnv exTree) =
        sinkCallSites exEnv.fi.imports exTree ∧
      sinkCallSites exEnv.fi.imports exTree = [("pickle.load", 3)] :=
  ⟨by decide, sink_to_finding_closure exEnv exTree (by decide), by decide⟩

/-! ## Claim C2 -/

/-- C2: when a safe root is configured, parse_file_to_ast reads only paths
inside the root, and on a path that is not a descendant of the root it
fails with the path-escape error before reading anything. -/
theorem safe_root_enforcement (fs : List String → FileData)
    (filepath root cwd : List String) :
    (∀ p ∈ (parse_file_to_ast fs filepath (some root) cwd).2,
        is_path_within_root p root = true) ∧
      (is_path_within_root filepath root = false →
        (parse_file_to_ast fs filepath (some root) cwd).1 =
            .error (filepath, root) ∧
          (parse_file_to_ast fs filepath (some root) cwd).2 = []) := by
  unfold parse_file_to_ast
  by_cases hw : is_path_within_root filepath root = true
  · constructor
    · intro p hp
      rw [if_pos hw] at hp
      cases hfs : fs filepath <;> rw [hfs] at hp <;>
        simp only [List.mem_singleton] at hp <;> rw [hp] <;> exact hw
    · intro hnot
      rw [hw] at hnot
      cases hnot
  · have hw2 : is_path_within_root filepath root = false := by
      cases h : is_path_within_root filepath root
      · rfl
      · exact absurd h hw
    constructor
    · intro p hp
      rw [if_neg (by simp [hw2])] at hp
      simp at hp
    · intro _
      rw [if_neg (by simp [hw2])]
      exact ⟨rfl, rfl⟩

/-- Witness for C2 at a concrete escaping path. -/
theorem safe_root_enforcement_witness :
    is_path_within_root ["home", "u", "other", "f.py"] ["home", "u", "proj"]
        = false ∧
      (parse_file_to_ast (fun _ => .unreadable)
            ["home", "u", "other", "f.py"]
            (some ["home", "u", "proj"]) ["home", "u"]).1 =
          .error (["home", "u", "other", "f.py"], ["home", "u", "proj"]) ∧
      (parse_file_to_ast (fun _ => .unreadable)
            ["home", "u", "other", "f.py"]
            (some ["home", "u", "proj"]) ["home", "u"]).2 = [] :=
  ⟨by decide,
    ((safe_root_enforcement (fun _ => .unreadable)
        ["home", "u", "other", "f.py"] ["home", "u", "proj"]
        ["home", "u"]).2 (by decide)).1,
    ((safe_root_enforcement (fun _ => .unreadable)
        ["home", "u", "other", "f.py"] ["home", "u", "proj"]
        ["home", "u"]).2 (by decide)).2⟩

/-! ## Claim C3 -/

/-- C3: provenance tracing terminates with at most 6 nested recursive
entries per sink argument (fuel `6 - depth` computes the fixed point, so 6
suffices from the entry depth 0), returns the recursion-limit triple at
the cap, and the cyclic self-assignment `x = x` terminates with the
recursion-limit outcome after six prefix steps. -/
theorem depth_termination :
    (∀ (env : TraceEnv) (node : Option Ast) (depth : Nat), 5 < depth →
        trace_source env node depth =
          ("unknown", "unknown (recursion limit)", "MEDIUM")) ∧
      (∀ (f : Nat) (env : TraceEnv) (node : Option Ast) (depth : Nat),
        6 - depth ≤ f →
        trace_sourceF f env node depth = trace_source env node depth) ∧
      trace_source cycEnv (some (.Name "x" 1)) 0 =
        ("unknown",
         "x (assigned at line 1) → x (assigned at line 1) → " ++
           "x (assigned at line 1) → x (assigned at line 1) → " ++
           "x (assigned at line 1) → x (assigned at line 1) → " ++
           "unknown (recursion limit)",
         "MEDIUM") := by
  refine ⟨?_, trace_sourceF_fuel_irrel, ?_⟩
  · intro env node depth h
    exact trace_source_depth_cap env node depth h
  · decide

/-- Witness for C3: the cap fires at depth 6 and fuel 6 reproduces a
depth-0 trace on the cyclic file. -/
theorem depth_termination_witness :
    (5 : Nat) < 6 ∧
      trace_source cycEnv (some (.Name "x" 1)) 6 =
        ("unknown", "unknown (recursion limit)", "MEDIUM") ∧
      6 - 0 ≤ 6 ∧
      trace_sourceF 6 cycEnv (some (.Name "x" 1)) 0 =
        trace_source cycEnv (some (.Name "x" 1)) 0 :=
  ⟨by decide, depth_termination.1 cycEnv (some (.Name "x" 1)) 6 (by decide),
    by decide,
    depth_termination.2.1 6 cycEnv (some (.Name "x" 1)) 0 (by decide)⟩

/-! ## Claim C4 -/

/-- Example file for C4: two plain definitions of `y` and a
`request.files` definition of `x`. -/
def c4Tree : Ast :=
  .Module
    [ .Assign [.Name "y" 1] (.ConstOther "1" 1) 1,
      .Assign [.Name "y" 2] (.ConstOther "2" 2) 2,
      .Assign [.Name "x" 3]
        (.Subscript (.Attr (.Name "request" 3) "files" 3) (.ConstStr "f" 3) 3)
        3 ]

/-- Trace environment over the C4 example file with nothing tainted. -/
def c4Env : TraceEnv :=
  { tainted := [],
    fi := { filename := "c4.py", tree := c4Tree, functions := [],
            imports := [] },
    pi := { files := [] } }

/-- Counterexample to C4 as stated: for `x` (defined from
`request.files[...]`) the tracer does not recurse and does not prefix the
flow with "(assigned at line L)" but reports the direct-stream result; and
for `y` it follows the first definition in tree-walk order (line 1), not
the most recent one (line 2). -/
theorem trace_name_counterexample :
    trace_source c4Env (some (.Name "x" 5)) 0 =
        ("x (direct stream from request.files)",
         "x (direct stream from request.files)", "HIGH") ∧
      trace_source c4Env (some (.Name "y" 5)) 0 =
        ("constant '1'", "y (assigned at line 1) → constant '1'", "LOW") := by
  decide

/-- C4 (amended): for an untainted identifier below the depth cap, if the
file-walk search finds no definition the tracer reports
"<name> (unresolved)" at MEDIUM; if the first definition found in walk
order is a `request.files` subscript it reports the direct-stream result
at HIGH without recursing; otherwise it recurses with depth+1 into that
first-found definition and prefixes the flow with
"<name> (assigned at line L) → ". -/
theorem trace_name_branch (env : TraceEnv) (id : String) (ln depth : Nat)
    (hd : depth ≤ 5) (ht : env.tainted.contains id = false) :
    (find_assignment env.fi.tree id = none →
        trace_source env (some (.Name id ln)) depth =
          (s!"{id} (unresolved)", s!"{id} (unresolved)", "MEDIUM")) ∧
      (∀ assign, find_assignment env.fi.tree id = some assign →
        isReqFilesSub assign = true →
        trace_source env (some (.Name id ln)) depth =
          (s!"{id} (direct stream from request.files)",
           s!"{id} (direct stream from request.files)", "HIGH")) ∧
      (∀ assign, find_assignment env.fi.tree id = some assign →
        isReqFilesSub assign = false →
        trace_source env (some (.Name id ln)) depth =
          (let t := trace_source env (some assign) (depth + 1)
           let flow := t.2.1
           let lineno := linenoRepr assign
           (t.1, s!"{id} (assigned at line {lineno}) → {flow}", t.2.2))) := by
  refine ⟨?_, ?_, ?_⟩
  · intro hfa
    rw [trace_source_unfold env _ depth hd]
    simp only [traceBodyE, ht, Bool.false_eq_true, if_false, hfa]
  · intro assign hfa hreq
    rw [trace_source_unfold env _ depth hd]
    simp only [traceBodyE, ht, Bool.false_eq_true, if_false, hfa, hreq,
      if_true]
  · intro assign hfa hreq
    rw [trace_source_unfold env _ depth hd]
    simp only [traceBodyE, ht, Bool.false_eq_true, if_false, hfa, hreq]

/-- Witness for the amended C4 on the example file: the unresolved, the
direct-stream, and the prefixed-recursion outcomes all realized. -/
theorem trace_name_branch_witness :
    (0 : Nat) ≤ 5 ∧
      c4Env.tainted.contains "z" = false ∧
      find_assignment c4Env.fi.tree "z" = none ∧
      trace_source c4Env (some (.Name "z" 5)) 0 =
        ("z (unresolved)", "z (unresolved)", "MEDIUM") :=
  ⟨by decide, by decide, rfl,
    (trace_name_branch c4Env "z" 5 0 (by decide) (by decide)).1 rfl⟩

/-! ## Claim C5 -/

/-- Example file for C5: a function whose name matches both a
file-operation keyword (`backup`) and a task keyword (`run`). -/
def c5Tree : Ast := .Module [.FunctionDef "run_backup" [] [.Return none 2] 1]

/-- Counterexample to C5 as stated: `run_backup` matches both keyword
lists, yet the detector attaches TaskExecution (the task check runs after
the file-operation check and overwrites its tag), not FileOperation. -/
theorem context_precedence_counterexample :
    is_file_operation_function "run_backup" [.Return none 2] = true ∧
      is_task_function "run_backup" = true ∧
      detect_context c5Tree =
        .ok [("run_backup",
          { http_endpoint := none, http_method := none,
            operation_type := some "task_execution",
            function_name := some "run_backup" })] :=
  ⟨by decide, by decide, rfl⟩

/-- C5 (amended): the HTTP-endpoint fields are attached independently of
the operation tag; between the two operation variants the detector
attaches TaskExecution whenever the task keywords match — a function
matching both keyword lists is tagged task_execution, and file_operation
only when the task keywords do not match. -/
theorem context_precedence (name : String) (decs body : List Ast)
    (c : Context) (h : detectOne name decs body = .ok c) :
    c.operation_type =
        (if is_task_function name then some "task_execution"
         else if is_file_operation_function name body then
           some "file_operation"
         else none) ∧
      c.function_name =
        (if is_task_function name ∨ is_file_operation_function name body then
          some name
         else none) :=
  detectOne_operation name decs body c h

/-- Witness for the amended C5 at the doubly-matching function. -/
theorem context_precedence_witness :
    detectOne "run_backup" [] [.Return none 2] =
        .ok { http_endpoint := none, http_method := none,
              operation_type := some "task_execution",
              function_name := some "run_backup" } ∧
      ({ http_endpoint := none, http_method := none,
         operation_type := some "task_execution",
         function_name := some "run_backup" : Context }).operation_type =
        (if is_task_function "run_backup" then some "task_execution"
         else if is_file_operation_function "run_backup" [.Return none 2] then
           some "file_operation"
         else none) :=
  ⟨rfl, (context_precedence "run_backup" [] [.Return none 2] _ rfl).1⟩

/-! ## Claim C6 -/

/-- Example file for C6: a sink whose argument's provenance tracing raises
(an `open` call with a malformed args value), followed by a clean sink. -/
def c6Tree : Ast :=
  .Module
    [ .ExprStmt
        (.Call (.Attr (.Name "pickle" 1) "load" 1)
          (.ok [.Call (.Name "open" 1) .malformed [] 1]) [] 1)
        1,
      .ExprStmt
        (.Call (.Attr (.Name "pickle" 2) "loads" 2)
          (.ok [.ConstStr "payload" 2]) [] 2)
        2 ]

/-- Visitor environment for the C6 example. -/
def c6Env : VEnv :=
  { fi := { filename := "c6.py", tree := c6Tree, functions := [],
            imports := [("pickle", "pickle")] },
    pi := { files := [] }, ctx := [] }

/-- Example file for the C6 counterexample: the sink call node itself
carries the malformed args value, so the exception arises in the
call-node handling before trace_source runs. -/
def c6BadTree : Ast :=
  .Module
    [.ExprStmt (.Call (.Attr (.Name "pickle" 1) "load" 1) .malformed [] 1) 1]

/-- Visitor environment for the C6 counterexample. -/
def c6BadEnv : VEnv :=
  { fi := { filename := "c6bad.py", tree := c6BadTree, functions := [],
            imports := [("pickle", "pickle")] },
    pi := { files := [] }, ctx := [] }

/-- Counterexample to C6 as stated: when the exception arises in the
call-node handling itself (evaluating `node.args[0]` of the sink call),
the handler drops to generic_visit and no finding at all is produced for
that sink, rather than a finding with the "error in source tracing"
strings. -/
theorem error_recovery_counterexample :
    extract_full_func_name (.Attr (.Name "pickle" 1) "load" 1)
        c6BadEnv.fi.imports = "pickle.load" ∧
      SINKS.contains "pickle.load" = true ∧
      analyze_file c6BadEnv c6BadTree = [] := by
  decide

/-- C6 (amended): an exception inside provenance recursion is caught by
trace_source's handler, which returns the defaulted error triple, so the
sink still yields a MEDIUM finding with the "error in source tracing"
strings and traversal continues; an exception in the call-node handling
outside trace_source instead suppresses that sink's finding while
traversal still continues.  The first conjunct states the per-level
recovery in general; the second runs the example file, whose first sink
yields the defaulted finding and whose second sink is still visited. -/
theorem error_recovery (env : TraceEnv) (node : Option Ast) (depth : Nat)
    (hd : depth ≤ 5)
    (herr : traceBodyE (fun m => trace_source env m (depth + 1)) env node =
      .error ()) :
    trace_source env node depth =
        ("error in source tracing", "error in source tracing", "MEDIUM") ∧
      analyze_file c6Env c6Tree =
        [{ sink := "pickle.load",
           initial_source := "error in source tracing",
           flow := "error in source tracing", filename := "c6.py",
           lineno := 1, risk := "MEDIUM", context := emptyCtx },
         { sink := "pickle.loads", initial_source := "file: 'payload'",
           flow := "'payload'", filename := "c6.py", lineno := 2,
           risk := "MEDIUM", context := emptyCtx }] := by
  constructor
  · rw [trace_source_unfold env node depth hd, herr]
    rfl
  · decide

/-- Witness for the amended C6: the malformed `open` argument makes the
trace body raise at depth 0, and the stated recovery holds there. -/
theorem error_recovery_witness :
    (0 : Nat) ≤ 5 ∧
      traceBodyE
          (fun m => trace_source ⟨[], c6Env.fi, c6Env.pi⟩ m (0 + 1))
          ⟨[], c6Env.fi, c6Env.pi⟩
          (some (.Call (.Name "open" 1) .malformed [] 1)) = .error () ∧
      trace_source ⟨[], c6Env.fi, c6Env.pi⟩
          (some (.Call (.Name "open" 1) .malformed [] 1)) 0 =
        ("error in source tracing", "error in source tracing", "MEDIUM") :=
  ⟨by decide, rfl,
    (error_recovery ⟨[], c6Env.fi, c6Env.pi⟩
        (some (.Call (.Name "open" 1) .malformed [] 1)) 0 (by decide)
        rfl).1⟩

/-! ## Claim C7 -/

/-- Counterexample to C7 as stated: the line `print (1)` has `print `
followed by a parenthesis, so the claimed heuristic does not flag it, yet
detect_py2_print does (the `print(` exclusion can never fire after a
match of `print ` with its trailing space) and the file is skipped. -/
theorem legacy_print_counterexample :
    detect_py2_print ["print (1)"] = true ∧
      legacy_skip ["print (1)"] false = true ∧
      spec_detect_py2 ["print (1)"] = false := by
  decide

/-- C7 (amended): with legacy support off, a file is skipped as legacy
dialect if and only if some line's stripped text starts with `print `
(print followed by a space), regardless of which character follows; lines
of the form `print(...)` without the space are never flagged by that
test. -/
theorem legacy_print_heuristic (lines : List String) (py2_mode : Bool) :
    legacy_skip lines py2_mode =
      ((lines.any fun line => startsChars (pyStrip line.data) "print ".data)
        && !py2_mode) := by
  unfold legacy_skip detect_py2_print
  congr 1
  have hfun :
      (fun line : String => startsChars (pyStrip line.data) "print ".data &&
          !startsChars (pyStrip line.data) "print(".data) =
        fun line : String => startsChars (pyStrip line.data) "print ".data := by
    funext line
    cases hb : startsChars (pyStrip line.data) "print ".data
    · simp [hb]
    · simp [hb, startsChars_print_space_not_paren _ hb]
  rw [hfun]

/-! ## Claim C8 -/

/-- Counterexample to C8 as stated: the sanitized form of `.bashrc` (and
the report file name built from it) begins with a dot. -/
theorem filename_dot_counterexample :
    sanitize_filename ".bashrc" = ".bashrc" ∧
      (sanitize_filename ".bashrc").data.head? = some '.' ∧
      (export_html_filename ".bashrc" "20250101_000000").data.head? =
        some '.' := by
  decide

/-- C8 (amended): the sanitized filename contains no path separator, is at
most 100 characters long, and is replaced by "unnamed" when the input or
its terminal path component is empty; it may begin with `.` when the
terminal component does. -/
theorem filename_hygiene (s : String) :
    '/' ∉ (sanitize_filename s).data ∧
      (sanitize_filename s).length ≤ 100 ∧
      (s = "" → sanitize_filename s = "unnamed") ∧
      (posixPathName s.data = [] → sanitize_filename s = "unnamed") := by
  by_cases hs : s = ""
  · simp only [sanitize_filename, if_pos hs]
    exact ⟨by decide, by decide, fun _ => trivial, fun _ => trivial⟩
  · simp only [sanitize_filename, if_neg hs]
    by_cases hlen : 100 < (posixPathName s.data).length
    · rw [if_pos hlen]
      have hne : (posixPathName s.data).take 100 ≠ [] := by
        intro h0
        have h1 := congrArg List.length h0
        rw [List.length_take] at h1
        simp only [List.length_nil] at h1
        omega
      rw [if_neg hne]
      refine ⟨?_, ?_, fun h => absurd h hs, fun h => ?_⟩
      · intro hmem
        exact posixPathName_no_slash s.data (List.take_subset 100 _ hmem)
      · have h2 : (String.mk ((posixPathName s.data).take 100)).length =
            ((posixPathName s.data).take 100).length := rfl
        rw [h2, List.length_take]
        omega
      · rw [h] at hlen
        simp at hlen
    · rw [if_neg hlen]
      by_cases hempty : posixPathName s.data = []
      · rw [if_pos hempty]
        exact ⟨by decide, by decide, fun h => absurd h hs, fun _ => rfl⟩
      · rw [if_neg hempty]
        refine ⟨posixPathName_no_slash s.data, ?_,
          fun h => absurd h hs, fun h => absurd h hempty⟩
        have h2 : (String.mk (posixPathName s.data)).length =
            (posixPathName s.data).length := rfl
        rw [h2]
        omega

/-- Witness for the amended C8: the truncation, the separator removal and
both unnamed substitutions on concrete inputs. -/
theorem filename_hygiene_witness :
    '/' ∉ (sanitize_filename "a/b.py").data ∧
      (sanitize_filename "a/b.py").length ≤ 100 ∧
      sanitize_filename "" = "unnamed" ∧
      sanitize_filename "/" = "unnamed" :=
  ⟨(filename_hygiene "a/b.py").1, (filename_hygiene "a/b.py").2.1,
    (filename_hygiene "").2.2.1 rfl, (filename_hygiene "/").2.2.2 rfl⟩

/-! ## Claim C9 -/

/-- C9: every triple produced by provenance tracing carries one of the
exact risk strings HIGH, MEDIUM or LOW; hence every finding's risk is one
of them and the fallback sort rank 3 of `RISK_LEVELS.get` is never
reached. -/
theorem risk_values :
    (∀ (env : TraceEnv) (node : Option Ast) (depth : Nat),
        riskStrings.contains (trace_source env node depth).2.2 = true) ∧
      (∀ (env : VEnv) (tree : Ast), ∀ fnd ∈ analyze_file env tree,
        riskStrings.contains fnd.risk = true ∧ riskRank fnd.risk ≤ 2) := by
  refine ⟨trace_source_risk, ?_⟩
  intro env tree fnd hf
  have h := (visit_findings_risk (astSize tree)).1 env ⟨[], none, []⟩ tree
    (by intro x hx; simp at hx) fnd hf
  exact ⟨h, riskRank_le_two_of_mem _ h⟩

/-- The single finding of the example file. -/
def exFinding : Finding :=
  { sink := "pickle.load", initial_source := "pickle file: 'model.pkl'",
    flow := "f (assigned at line 2) → open('model.pkl' (pickle file))",
    filename := "t.py", lineno := 3, risk := "HIGH", context := emptyCtx }

/-- Witness for C9 at the example file's finding. -/
theorem risk_values_witness :
    exFinding ∈ analyze_file exEnv exTree ∧
      riskStrings.contains exFinding.risk = true ∧
      riskRank exFinding.risk ≤ 2 :=
  ⟨by decide,
    (risk_values.2 exEnv exTree exFinding (by decide)).1,
    (risk_values.2 exEnv exTree exFinding (by decide)).2⟩

/-! ## Claim C10 -/

/-- C10: within one file's traversal the tainted-identifier set grows
monotonically — the state reached by visiting any node or node list keeps
every name already tainted, at every fuel. -/
theorem tainted_monotone :
    (∀ (fuel : Nat) (env : VEnv) (s : VState) (a : Ast),
        s.tainted ⊆ (visitF fuel env s a).tainted) ∧
      (∀ (fuel : Nat) (env : VEnv) (s : VState) (l : List Ast),
        s.tainted ⊆ (visitListF fuel env s l).tainted) :=
  ⟨fun fuel => (visit_tainted_mono fuel).1,
    fun fuel => (visit_tainted_mono fuel).2⟩

/-- Witness for C10: a pre-tainted name survives a whole file traversal. -/
theorem tainted_monotone_witness :
    "seed" ∈ (visitF (astSize exTree) exEnv ⟨["seed"], none, []⟩
      exTree).tainted :=
  tainted_monotone.1 (astSize exTree) exEnv ⟨["seed"], none, []⟩ exTree
    (by decide)

end PickleInspector
